import Mathlib

/-!
Verification of `virtualenv_tools.py` (a helper that relocates POSIX
virtualenvs to a new filesystem prefix).

The Python source is shallowly embedded: file contents are lists of lines
(each line a `List Char`, newline terminators included, exactly as Python's
`list(f)` yields them), directories are lists of named entries, and every
Python function of the tool becomes an executable Lean function with the
same name.  The regular expressions of the source
(`_activation_path_re = ^(?:set -gx |setenv |)VIRTUAL_ENV[ =]"(.*?)"\s*$`
and `_pybin_match = ^python\d+\.\d+$`) are embedded by direct matcher
functions whose semantics is argued line by line against Python's `re`
behaviour (anchoring without MULTILINE, `.` not matching newline, the lazy
group, `$` before a trailing newline).
-/

namespace VirtualenvTools

/-- Characters of a string literal; file contents are `List Char`. -/
def chars (s : String) : List Char := s.toList

/-- Python 3's `str` whitespace class, used identically by `str.strip()`,
`str.split()` and the regex `\s` of a `str` pattern (the three sets
coincide in CPython): codepoints U+0009-U+000D, U+001C-U+0020, U+0085,
U+00A0, U+1680, U+2000-U+200A, U+2028-U+2029, U+202F, U+205F, U+3000. -/
def pyIsSpace (c : Char) : Bool :=
  let n := c.toNat
  (0x9 ≤ n && n ≤ 0xd) || (0x1c ≤ n && n ≤ 0x20)
  || n == 0x85 || n == 0xa0 || n == 0x1680
  || (0x2000 ≤ n && n ≤ 0x200a) || n == 0x2028 || n == 0x2029
  || n == 0x202f || n == 0x205f || n == 0x3000

/-- Python 3's regex `\d` of a `str` pattern (no `re.ASCII`): exactly the
Unicode decimal-digit codepoints (general category Nd), as inclusive
codepoint ranges. -/
def pyDigitRanges : List (Nat × Nat) :=
  [(0x30, 0x39), (0x660, 0x669), (0x6f0, 0x6f9), (0x7c0, 0x7c9),
   (0x966, 0x96f), (0x9e6, 0x9ef), (0xa66, 0xa6f), (0xae6, 0xaef),
   (0xb66, 0xb6f), (0xbe6, 0xbef), (0xc66, 0xc6f), (0xce6, 0xcef),
   (0xd66, 0xd6f), (0xde6, 0xdef), (0xe50, 0xe59), (0xed0, 0xed9),
   (0xf20, 0xf29), (0x1040, 0x1049), (0x1090, 0x1099), (0x17e0, 0x17e9),
   (0x1810, 0x1819), (0x1946, 0x194f), (0x19d0, 0x19d9), (0x1a80, 0x1a89),
   (0x1a90, 0x1a99), (0x1b50, 0x1b59), (0x1bb0, 0x1bb9), (0x1c40, 0x1c49),
   (0x1c50, 0x1c59), (0xa620, 0xa629), (0xa8d0, 0xa8d9), (0xa900, 0xa909),
   (0xa9d0, 0xa9d9), (0xa9f0, 0xa9f9), (0xaa50, 0xaa59), (0xabf0, 0xabf9),
   (0xff10, 0xff19), (0x104a0, 0x104a9), (0x10d30, 0x10d39),
   (0x11066, 0x1106f), (0x110f0, 0x110f9), (0x11136, 0x1113f),
   (0x111d0, 0x111d9), (0x112f0, 0x112f9), (0x11450, 0x11459),
   (0x114d0, 0x114d9), (0x11650, 0x11659), (0x116c0, 0x116c9),
   (0x11730, 0x11739), (0x118e0, 0x118e9), (0x11950, 0x11959),
   (0x11c50, 0x11c59), (0x11d50, 0x11d59), (0x11da0, 0x11da9),
   (0x16a60, 0x16a69), (0x16ac0, 0x16ac9), (0x16b50, 0x16b59),
   (0x1d7ce, 0x1d7ff), (0x1e140, 0x1e149), (0x1e2f0, 0x1e2f9),
   (0x1e950, 0x1e959), (0x1fbf0, 0x1fbf9)]

def pyIsDigit (c : Char) : Bool :=
  pyDigitRanges.any (fun r => r.1 ≤ c.toNat && c.toNat ≤ r.2)

/-- `p.isPrefixOf l` returning the remainder on success (helper for the
anchored regex alternatives and for `str.startswith`). -/
def stripPfx (p l : List Char) : Option (List Char) :=
  if p.isPrefixOf l then some (l.drop p.length) else none

/-- Python `str.strip()`: drop whitespace at both ends. -/
def pyStrip (l : List Char) : List Char :=
  ((l.dropWhile pyIsSpace).reverse.dropWhile pyIsSpace).reverse

/-- Worker for Python `str.split()` (split on whitespace runs, no empty
tokens); `acc` holds the current token reversed. -/
def pySplitAux : List Char → List Char → List (List Char)
  | [], acc => if acc.isEmpty then [] else [acc.reverse]
  | c :: cs, acc =>
    if pyIsSpace c then
      if acc.isEmpty then pySplitAux cs [] else acc.reverse :: pySplitAux cs []
    else pySplitAux cs (c :: acc)

/-- Python `str.split()` with no separator argument. -/
def pySplit (l : List Char) : List (List Char) := pySplitAux l []

/-- POSIX `os.path.isabs`: the path starts with a slash. -/
def isabs (p : List Char) : Bool :=
  match p with
  | '/' :: _ => true
  | _ => false

/-- POSIX `os.path.join` for two components (the second is never empty in
this program): an absolute second component resets, otherwise a `/` is
inserted unless the first part is empty or already ends in `/`. -/
def osJoin (a b : List Char) : List Char :=
  if isabs b then b
  else if a = [] then b
  else if a.getLast? = some '/' then a ++ b
  else a ++ '/' :: b

/-- Python's substring test `needle in hay` (used by
`'/usr/bin/env python' in args[0]`). -/
def isSubstring (needle : List Char) : List Char → Bool
  | [] => needle.isEmpty
  | c :: t => needle.isPrefixOf (c :: t) || isSubstring needle t

/-! ## The activation-script rewriter

Source:
```
_activation_path_re = re.compile(r'^(?:set -gx |setenv |)VIRTUAL_ENV[ =]"(.*?)"\s*$')

def update_activation_script(script_filename, new_path):
    ...
    def _handle_sub(match):
        text = match.group()
        start, end = match.span()
        g_start, g_end = match.span(1)
        return text[:(g_start - start)] + new_path + text[(g_end - end):]
    for idx, line in enumerate(lines):
        new_line = _activation_path_re.sub(_handle_sub, line)
        ...
```
The pattern is anchored (`^` at position 0, no MULTILINE; `\s*$` forces the
rest of the line to be whitespace), so `re.sub` rewrites at most one span,
which covers the whole line.  The three alternatives of the non-capturing
group are mutually exclusive on any given line (they diverge on a concrete
character), so no backtracking between them can change the outcome.  The
lazy group `(.*?)` matches any characters except `\n`; because everything
after the closing quote must be whitespace and a quote is not whitespace,
the closing-quote position is unique: it is the last non-whitespace
character of the line.  `activationMatch` returns the decomposition
(dialect keyword, separator, captured payload, trailing whitespace). -/
def dialectSplit (line : List Char) : Option (List Char × List Char) :=
  match stripPfx (chars "set -gx VIRTUAL_ENV") line with
  | some r => some (chars "set -gx ", r)
  | none =>
    match stripPfx (chars "setenv VIRTUAL_ENV") line with
    | some r => some (chars "setenv ", r)
    | none =>
      match stripPfx (chars "VIRTUAL_ENV") line with
      | some r => some ([], r)
      | none => none

def activationMatch (line : List Char) :
    Option (List Char × Char × List Char × List Char) :=
  match dialectSplit line with
  | none => none
  | some (pfx, rest) =>
    match rest with
    | sep :: '"' :: t =>
      if sep = ' ' || sep = '=' then
        let ws := (t.reverse.takeWhile pyIsSpace).reverse
        match t.reverse.dropWhile pyIsSpace with
        | '"' :: revPayload =>
          let payload := revPayload.reverse
          if payload.contains '\n' then none
          else some (pfx, sep, payload, ws)
        | _ => none
      else none
    | _ => none

/-- One `re.sub` application of `_activation_path_re` to one line: on a
match, the capture span (the quoted path payload) is replaced by
`new_path` and everything outside it is kept. -/
def activationSub (new_path : List Char) (line : List Char) : List Char :=
  match activationMatch line with
  | none => line
  | some (pfx, sep, _payload, ws) =>
    pfx ++ chars "VIRTUAL_ENV" ++ sep :: '"' :: (new_path ++ '"' :: ws)

/-- `update_activation_script`, at the level of file contents: every line
goes through the substitution (the file is written back only when some
line changed, which does not affect the resulting content). -/
def update_activation_lines (new_path : List Char) (lines : List (List Char)) :
    List (List Char) :=
  lines.map (activationSub new_path)

/-! ## The generic-script (shebang) rewriter

Source: `update_script` reads all lines, inspects `lines[0]`, and on a
rewrite replaces only `lines[0]` by `'#!%s\n' % ' '.join(args)`. -/
def update_script_lines (new_path : List Char) (lines : List (List Char)) :
    List (List Char) :=
  match lines with
  | [] => []
  | first :: rest =>
    if !((chars "#!").isPrefixOf first) then first :: rest
    else
      match pySplit (pyStrip (first.drop 2)) with
      | [] => first :: rest
      | a0 :: argtail =>
        if !((chars "/bin/python").isSuffixOf a0)
            || isSubstring (chars "/usr/bin/env python") a0 then
          first :: rest
        else
          let new_bin := osJoin (osJoin new_path (chars "bin")) (chars "python")
          if new_bin = a0 then first :: rest
          else
            (chars "#!" ++ (List.intercalate (chars " ") (new_bin :: argtail))
              ++ ['\n']) :: rest

/-- The fixed activation-script name set of the source. -/
def ACTIVATION_SCRIPTS : List (List Char) :=
  [chars "activate", chars "activate.csh", chars "activate.fish"]

/-- A named file of the `bin/` directory: the listing name and the file's
content as lines. -/
structure BinEntry where
  name : List Char
  content : List (List Char)
deriving DecidableEq

/-- `update_scripts`: every file of the `bin/` listing goes through the
activation rewriter when its name is one of the three activation-script
names, and through the shebang rewriter otherwise. -/
def update_scripts (new_path : List Char) (entries : List BinEntry) :
    List BinEntry :=
  entries.map (fun e =>
    if e.name ∈ ACTIVATION_SCRIPTS then
      ⟨e.name, update_activation_lines new_path e.content⟩
    else
      ⟨e.name, update_script_lines new_path e.content⟩)

/-- The console messages `update_scripts` prints: `A <path>` for a changed
activation script, `S <path>` for a rewritten generic script, nothing for
an untouched file. -/
def update_scripts_log (bin_dir new_path : List Char)
    (entries : List BinEntry) : List (List Char) :=
  entries.foldr (fun e log =>
    if e.name ∈ ACTIVATION_SCRIPTS then
      let c := update_activation_lines new_path e.content
      if c ≠ e.content then (chars "A " ++ osJoin bin_dir e.name) :: log else log
    else
      let c := update_script_lines new_path e.content
      if c ≠ e.content then (chars "S " ++ osJoin bin_dir e.name) :: log else log)
    [] -- foldr so that messages appear in listing order

/-! ## The compiled-bytecode invalidator -/

/-- `filename.endswith(('.pyc', '.pyo'))`. -/
def isPycName (f : List Char) : Bool :=
  (chars ".pyc").isSuffixOf f || (chars ".pyo").isSuffixOf f

/-- `remove_pycs`: walk over the library tree's file list (each entry a
full path), deleting (`os.remove`) every bytecode-cache file and logging
`D <path>`.  The walk iterates over the listing snapshot while the
deletions update the file-set state. -/
def remove_pycs_aux : List (List Char) → List (List Char) →
    List (List Char) × List (List Char)
  | [], fs => (fs, [])
  | f :: walk, fs =>
    if isPycName f then
      let r := remove_pycs_aux walk (fs.erase f)
      (r.1, (chars "D " ++ f) :: r.2)
    else remove_pycs_aux walk fs

/-- `remove_pycs` on the file set of the library tree: returns the
surviving files and the emitted log. -/
def remove_pycs (files : List (List Char)) :
    List (List Char) × List (List Char) :=
  remove_pycs_aux files files

/-! ## The link-farm normalizer (`update_local`) -/

/-- State of the filesystem entry at `local/<name>`: nothing there, a
non-symlink entry (regular file or directory), or a symbolic link whose
stored target string is `target`. -/
inductive EntryState where
  | absent : EntryState
  | nonLink : EntryState
  | link : List Char → EntryState
deriving DecidableEq

/-- The optional `local/` directory: presence plus the three member
entries the source's loop visits. -/
structure LocalDir where
  present : Bool
  bin : EntryState
  lib : EntryState
  inc : EntryState
deriving DecidableEq

/-- One iteration of `update_local`'s loop: if the entry is a symlink with
the wrong target (`os.path.islink(..) and os.readlink(..) != target`),
remove and recreate it pointing at `../<folder>` and report `L <path>`;
everything else is untouched. -/
def fixLocalLink (expected : List Char) (e : EntryState) : EntryState × Bool :=
  match e with
  | .link t => if t ≠ expected then (.link expected, true) else (e, false)
  | _ => (e, false)

/-- `update_local(base, new_path)`: no-op when `local/` is not a
directory; otherwise the loop over `'bin', 'lib', 'include'`. -/
def update_local (base : List Char) (l : LocalDir) :
    LocalDir × List (List Char) :=
  if !l.present then (l, [])
  else
    let local_dir := osJoin base (chars "local")
    let rb := fixLocalLink (chars "../bin") l.bin
    let rl := fixLocalLink (chars "../lib") l.lib
    let ri := fixLocalLink (chars "../include") l.inc
    (⟨true, rb.1, rl.1, ri.1⟩,
      (if rb.2 then [chars "L " ++ osJoin local_dir (chars "bin")] else [])
      ++ (if rl.2 then [chars "L " ++ osJoin local_dir (chars "lib")] else [])
      ++ (if ri.2 then [chars "L " ++ osJoin local_dir (chars "include")] else []))

/-! ## Layout detection and the orchestrator (`update_paths`) -/

/-- `_pybin_match = re.compile(r'^python\d+\.\d+$')`: `python`, one or
more digits, a dot, one or more digits, end of string. -/
def pybinMatch (name : List Char) : Bool :=
  match stripPfx (chars "python") name with
  | none => false
  | some rest =>
    let ds := rest.takeWhile pyIsDigit
    match ds, rest.dropWhile pyIsDigit with
    | [], _ => false
    | _ :: _, '.' :: rest2 => !rest2.isEmpty && rest2.all pyIsDigit
    | _ :: _, _ => false

/-- The filesystem state `update_paths` reads and mutates: the `bin/`
directory (listing of named script files plus whether `bin/python` is a
regular file), the `lib/` directory listing (subdirectory names), the file
paths under the versioned library subtree, and the optional `local/`
link farm. -/
structure VEnvFS where
  binIsDir : Bool
  binEntries : List BinEntry
  binHasPythonFile : Bool
  libIsDir : Bool
  libEntries : List (List Char)
  libFiles : List (List Char)
  localDir : LocalDir
deriving DecidableEq

/-- `update_paths(base, new_path)`: validate that `new_path` is absolute,
detect the layout (first `lib/` entry matching `_pybin_match`, a `bin/`
directory, a `bin/python` file), then run the three mutation stages in
order.  Returns the success flag, the mutated filesystem and the console
output. -/
def update_paths (base : List Char) (env : VEnvFS) (new_path : List Char) :
    Bool × VEnvFS × List (List Char) :=
  if !isabs new_path then
    (false, env, [chars "error: " ++ new_path ++ chars " is not an absolute path"])
  else
    let bin_dir := osJoin base (chars "bin")
    let lib_match : Option (List Char) :=
      if env.libIsDir then env.libEntries.find? pybinMatch else none
    if lib_match.isNone || !env.binIsDir || !env.binHasPythonFile then
      (false, env,
        [chars "error: " ++ base ++ chars " does not refer to a python installation"])
    else
      let entries := update_scripts new_path env.binEntries
      let slog := update_scripts_log bin_dir new_path env.binEntries
      let pycs := remove_pycs env.libFiles
      let loc := update_local base env.localDir
      (true,
        { env with binEntries := entries, libFiles := pycs.1, localDir := loc.1 },
        slog ++ pycs.2 ++ loc.2)

/-! ## The reinitializer (`reinitialize_virtualenv`) -/

/-- The filesystem state `reinitialize_virtualenv` reads: whether `lib/`
is a directory, the names under `lib/`, the names under the versioned
`lib/python<x>.<y>/` directory, and whether the
`no-global-site-packages.txt` marker is a regular file there. -/
structure ReinitFS where
  libIsDir : Bool
  libEntries : List (List Char)
  verDirEntries : List (List Char)
  hasNoGlobalMarker : Bool

/-- The environment-filtering loop of `reinitialize_virtualenv`:
`new_env = {}` then insertion of every `os.environ` item whose key does
not start with `VIRTUALENV_`. -/
def reinit_new_env (environ : List (List Char × List Char)) :
    List (List Char × List Char) :=
  environ.foldl (fun acc kv =>
    if (chars "VIRTUALENV_").isPrefixOf kv.1 then acc else acc ++ [kv]) []

/-- `reinitialize_virtualenv(path, substitute_python)`: on success,
returns the argument list and the environment mapping handed to
`subprocess.Popen`; `none` models the two error returns. -/
def reinitialize_virtualenv (fs : ReinitFS) (path substitute_python : List Char)
    (environ : List (List Char × List Char)) :
    Option (List (List Char) × List (List Char × List Char)) :=
  if !fs.libIsDir then none
  else
    match fs.libEntries.find? pybinMatch with
    | none => none
    | some _py_ver =>
      let args0 := [chars "virtualenv", chars "-p", substitute_python]
      let args1 :=
        if !fs.hasNoGlobalMarker then args0 ++ [chars "--system-site-packages"]
        else args0
      let args2 := fs.verDirEntries.foldl (fun a filename =>
        if (chars "distribute-").isPrefixOf filename
            && (chars ".egg").isSuffixOf filename then
          a ++ [chars "--distribute"]
        else a) args1
      some (args2 ++ [path], reinit_new_env environ)

/-! ## Basic list lemmas used throughout -/

lemma isPrefixOf_append_self : ∀ (p r : List Char), p.isPrefixOf (p ++ r) = true
  | [], _ => by simp [List.isPrefixOf]
  | c :: p, r => by
    simp only [List.cons_append, List.isPrefixOf_cons₂_self]
    exact isPrefixOf_append_self p r

lemma eq_append_drop_of_isPrefixOf :
    ∀ (p l : List Char), p.isPrefixOf l = true → l = p ++ l.drop p.length
  | [], l, _ => rfl
  | c :: p, [], h => by simp [List.isPrefixOf] at h
  | c :: p, d :: l, h => by
    simp only [List.isPrefixOf, Bool.and_eq_true, beq_iff_eq] at h
    simpa [h.1] using eq_append_drop_of_isPrefixOf p l h.2

lemma stripPfx_append_self (p r : List Char) : stripPfx p (p ++ r) = some r := by
  simp [stripPfx, isPrefixOf_append_self, List.drop_left]

lemma stripPfx_eq_some {p l r : List Char} (h : stripPfx p l = some r) :
    l = p ++ r := by
  unfold stripPfx at h
  by_cases hp : p.isPrefixOf l = true
  · simp only [hp, if_true, Option.some.injEq] at h
    subst h
    exact eq_append_drop_of_isPrefixOf p l hp
  · simp [hp] at h

lemma dropWhile_append_of_all {p : Char → Bool} :
    ∀ (l r : List Char), (∀ c ∈ l, p c = true) →
      (l ++ r).dropWhile p = r.dropWhile p
  | [], r, _ => rfl
  | c :: l, r, h => by
    have hc : p c = true := h c (by simp)
    simp only [List.cons_append, List.dropWhile_cons, hc, if_true]
    exact dropWhile_append_of_all l r (fun d hd => h d (by simp [hd]))

lemma takeWhile_append_of_all {p : Char → Bool} :
    ∀ (l r : List Char), (∀ c ∈ l, p c = true) →
      (l ++ r).takeWhile p = l ++ r.takeWhile p
  | [], r, _ => rfl
  | c :: l, r, h => by
    have hc : p c = true := h c (by simp)
    simp only [List.cons_append, List.takeWhile_cons, hc, if_true]
    simpa using takeWhile_append_of_all l r (fun d hd => h d (by simp [hd]))

/-! ## The anatomy of an `_activation_path_re` match -/

/-- The three alternatives of the dialect group of `_activation_path_re`. -/
def IsDialect (pfx : List Char) : Prop :=
  pfx = chars "set -gx " ∨ pfx = chars "setenv " ∨ pfx = []

/-- A line assembled from a dialect keyword, a separator, a quoted payload
and trailing whitespace — the exact shape `_activation_path_re` accepts. -/
def assignLine (pfx : List Char) (sep : Char) (payload ws : List Char) :
    List Char :=
  pfx ++ chars "VIRTUAL_ENV" ++ sep :: '"' :: (payload ++ '"' :: ws)

/-- `activationMatch` recovers exactly the pieces a well-formed assignment
line is assembled from (and refuses a payload holding a newline, since
`.` does not match `\n`). -/
lemma activationMatch_assign (pfx : List Char) (sep : Char) (payload ws : List Char)
    (hpfx : IsDialect pfx) (hsep : sep = ' ' ∨ sep = '=')
    (hws : ∀ c ∈ ws, pyIsSpace c = true) :
    activationMatch (assignLine pfx sep payload ws)
      = if payload.contains '\n' then none else some (pfx, sep, payload, ws) := by
  have hq : pyIsSpace '"' = false := rfl
  have hsh : (payload ++ '"' :: ws).reverse = ws.reverse ++ '"' :: payload.reverse := by
    rw [List.reverse_append, List.reverse_cons, List.append_assoc,
      List.singleton_append]
  have hwsr : ∀ c ∈ ws.reverse, pyIsSpace c = true := fun c hc =>
    hws c (by simpa using hc)
  have hdrop : ((payload ++ '"' :: ws).reverse).dropWhile pyIsSpace
      = '"' :: payload.reverse := by
    rw [hsh, dropWhile_append_of_all _ _ hwsr]
    simp [List.dropWhile_cons, hq]
  have htake : (((payload ++ '"' :: ws).reverse).takeWhile pyIsSpace).reverse = ws := by
    rw [hsh, takeWhile_append_of_all _ _ hwsr]
    simp [List.takeWhile_cons, hq]
  have h1 : ∀ r : List Char,
      stripPfx (chars "set -gx VIRTUAL_ENV") (chars "setenv VIRTUAL_ENV" ++ r) = none :=
    fun _ => rfl
  have h2 : ∀ r : List Char,
      stripPfx (chars "set -gx VIRTUAL_ENV") (chars "VIRTUAL_ENV" ++ r) = none :=
    fun _ => rfl
  have h3 : ∀ r : List Char,
      stripPfx (chars "setenv VIRTUAL_ENV") (chars "VIRTUAL_ENV" ++ r) = none :=
    fun _ => rfl
  rcases hpfx with h | h | h <;> subst h
  · have hline : assignLine (chars "set -gx ") sep payload ws
        = chars "set -gx VIRTUAL_ENV" ++ (sep :: '"' :: (payload ++ '"' :: ws)) := by
      simp [assignLine, chars]
    rw [hline]
    simp only [activationMatch, dialectSplit, stripPfx_append_self]
    rcases hsep with h | h <;> subst h <;>
      simp only [hdrop, htake, List.reverse_reverse] <;> rfl
  · have hline : assignLine (chars "setenv ") sep payload ws
        = chars "setenv VIRTUAL_ENV" ++ (sep :: '"' :: (payload ++ '"' :: ws)) := by
      simp [assignLine, chars]
    rw [hline]
    simp only [activationMatch, dialectSplit, h1, stripPfx_append_self]
    rcases hsep with h | h <;> subst h <;>
      simp only [hdrop, htake, List.reverse_reverse] <;> rfl
  · have hline : assignLine [] sep payload ws
        = chars "VIRTUAL_ENV" ++ (sep :: '"' :: (payload ++ '"' :: ws)) := by
      simp [assignLine, chars]
    rw [hline]
    simp only [activationMatch, dialectSplit, h2, h3, stripPfx_append_self]
    rcases hsep with h | h <;> subst h <;>
      simp only [hdrop, htake, List.reverse_reverse] <;> rfl

/-- Inversion for the dialect group: a successful split names one of the
three alternatives and peels `pfx ++ "VIRTUAL_ENV"` off the line. -/
lemma dialectSplit_eq_some {line pfx rest : List Char}
    (h : dialectSplit line = some (pfx, rest)) :
    IsDialect pfx ∧ line = pfx ++ chars "VIRTUAL_ENV" ++ rest := by
  unfold dialectSplit at h
  split at h
  case _ r heq =>
    obtain ⟨rfl, rfl⟩ : chars "set -gx " = pfx ∧ r = rest := by
      simpa using h
    refine ⟨Or.inl rfl, ?_⟩
    have := stripPfx_eq_some heq
    simpa [chars] using this
  case _ =>
    split at h
    case _ r heq =>
      obtain ⟨rfl, rfl⟩ : chars "setenv " = pfx ∧ r = rest := by
        simpa using h
      refine ⟨Or.inr (Or.inl rfl), ?_⟩
      have := stripPfx_eq_some heq
      simpa [chars] using this
    case _ =>
      split at h
      case _ r heq =>
        obtain ⟨rfl, rfl⟩ : pfx = [] ∧ r = rest := by
          simpa using h
        refine ⟨Or.inr (Or.inr rfl), ?_⟩
        have := stripPfx_eq_some heq
        simpa [chars] using this
      case _ => exact absurd h (by simp)

/-- Inversion for the whole pattern: a successful match can only come from
a line of the assembled `assignLine` shape, with whitespace-only trail and
a newline-free payload. -/
lemma activationMatch_eq_some {line pfx : List Char} {sep : Char}
    {payload ws : List Char}
    (h : activationMatch line = some (pfx, sep, payload, ws)) :
    IsDialect pfx ∧ (sep = ' ' ∨ sep = '=')
    ∧ (∀ c ∈ ws, pyIsSpace c = true)
    ∧ payload.contains '\n' = false
    ∧ line = assignLine pfx sep payload ws := by
  unfold activationMatch at h
  split at h
  case _ => exact absurd h (by simp)
  case _ pfx' rest hds =>
    split at h
    case _ sep' t =>
      split at h
      case isTrue hsep' =>
        split at h
        case _ revPayload hdw =>
          by_cases hnl : '\n' ∈ revPayload.reverse
          · simp [hnl] at h
          · simp [hnl] at h
            obtain ⟨rfl, rfl, rfl, rfl⟩ :
                pfx' = pfx ∧ sep' = sep ∧ revPayload.reverse = payload
                  ∧ (t.reverse.takeWhile pyIsSpace).reverse = ws := by
              simp_all
            obtain ⟨hd, hline⟩ := dialectSplit_eq_some hds
            have ht : t = revPayload.reverse ++ '"'
                :: (t.reverse.takeWhile pyIsSpace).reverse := by
              have hsplit : t.reverse
                  = t.reverse.takeWhile pyIsSpace ++ ('"' :: revPayload) := by
                conv_lhs => rw [← List.takeWhile_append_dropWhile (p := pyIsSpace)
                  (l := t.reverse)]
                rw [hdw]
              calc t = t.reverse.reverse := by rw [List.reverse_reverse]
                _ = ('"' :: revPayload).reverse
                      ++ (t.reverse.takeWhile pyIsSpace).reverse := by
                    conv_lhs => rw [hsplit]
                    rw [List.reverse_append]
                _ = revPayload.reverse ++ '"'
                      :: (t.reverse.takeWhile pyIsSpace).reverse := by
                    rw [List.reverse_cons, List.append_assoc, List.singleton_append]
            have hsep2 : sep' = ' ' ∨ sep' = '=' := by simpa using hsep'
            refine ⟨hd, hsep2, ?_, by simpa using hnl, ?_⟩
            · intro c hc
              have hmem : c ∈ t.reverse.takeWhile pyIsSpace := by simpa using hc
              simpa using List.mem_takeWhile_imp hmem
            · rw [hline, assignLine, ← ht]
        case _ => exact absurd h (by simp)
      case isFalse => exact absurd h (by simp)
    case _ => exact absurd h (by simp)

/-- Substituting into a well-formed assignment line replaces exactly the
payload (provided the payload holds no newline, which is when the regex
matches at all). -/
lemma activationSub_assign (np pfx : List Char) (sep : Char) (payload ws : List Char)
    (hpfx : IsDialect pfx) (hsep : sep = ' ' ∨ sep = '=')
    (hws : ∀ c ∈ ws, pyIsSpace c = true)
    (hnl : payload.contains '\n' = false) :
    activationSub np (assignLine pfx sep payload ws) = assignLine pfx sep np ws := by
  unfold activationSub
  rw [activationMatch_assign pfx sep payload ws hpfx hsep hws, hnl]
  rfl

/-- One pass of the activation substitution is idempotent on every line
(for any new path: a path with a newline simply stops matching on the
second pass). -/
lemma activationSub_idem (np line : List Char) :
    activationSub np (activationSub np line) = activationSub np line := by
  cases hm : activationMatch line with
  | none => simp [activationSub, hm]
  | some q =>
    obtain ⟨pfx, sep, payload, ws⟩ := q
    obtain ⟨hd, hsep, hws, _, _⟩ := activationMatch_eq_some hm
    have hsub : activationSub np line = assignLine pfx sep np ws := by
      simp [activationSub, hm, assignLine]
    rw [hsub]
    unfold activationSub
    rw [activationMatch_assign pfx sep np ws hd hsep hws]
    by_cases hnl : '\n' ∈ np
    · simp [hnl]
    · simp [hnl, assignLine]

/-! # Claim C1 -/

/-- **C1, counterexample.**  The claim asserts that for a file containing a
line assigning `VIRTUAL_ENV`, rewriting replaces that line's payload and
leaves *all other lines* unchanged.  A file with two assignment lines
refutes it: both are rewritten, so the "other" line (index 1) does not
survive unchanged. -/
theorem C1_counterexample :
    update_activation_lines (chars "/new")
        [chars "VIRTUAL_ENV=\"/old\"\n", chars "VIRTUAL_ENV=\"/old2\"\n"]
      = [chars "VIRTUAL_ENV=\"/new\"\n", chars "VIRTUAL_ENV=\"/new\"\n"]
    ∧ (update_activation_lines (chars "/new")
        [chars "VIRTUAL_ENV=\"/old\"\n", chars "VIRTUAL_ENV=\"/old2\"\n"])[1]?
        ≠ some (chars "VIRTUAL_ENV=\"/old2\"\n") := by decide

/-- **C1, amended.**  For every line of the file matching the assignment
pattern (dialect keyword, separator, quoted payload, trailing whitespace),
rewriting replaces exactly the quoted payload of that line with the new
path — keyword, variable name, quotes and trailing whitespace survive
verbatim — and every line not matching the pattern is preserved unchanged.
(The original claim said *all* other lines are preserved, which fails when
more than one line matches.) -/
theorem C1_per_line_payload_substitution (np : List Char)
    (lines : List (List Char)) (i : Nat)
    (pfx : List Char) (sep : Char) (payload ws : List Char)
    (hpfx : IsDialect pfx) (hsep : sep = ' ' ∨ sep = '=')
    (hws : ∀ c ∈ ws, pyIsSpace c = true)
    (hnl : payload.contains '\n' = false)
    (hi : lines[i]? = some (assignLine pfx sep payload ws)) :
    (update_activation_lines np lines)[i]? = some (assignLine pfx sep np ws)
    ∧ ∀ (j : Nat) (line : List Char), lines[j]? = some line → activationMatch line = none →
        (update_activation_lines np lines)[j]? = some line := by
  constructor
  · rw [update_activation_lines, List.getElem?_map, hi]
    simp [activationSub_assign np pfx sep payload ws hpfx hsep hws hnl]
  · intro j line hj hm
    rw [update_activation_lines, List.getElem?_map, hj]
    simp [activationSub, hm]

/-- Witness for C1: a concrete plain-dialect assignment line is rewritten
payload-for-payload, with an unmatched line preserved. -/
theorem C1_per_line_payload_substitution_witness :
    (IsDialect ([] : List Char)
      ∧ (('=' : Char) = ' ' ∨ ('=' : Char) = '=')
      ∧ (∀ c ∈ (['\n'] : List Char), pyIsSpace c = true)
      ∧ (chars "/old/path").contains '\n' = false
      ∧ ([chars "export A\n", assignLine [] '=' (chars "/old/path") ['\n']]
          : List (List Char))[1]?
          = some (assignLine [] '=' (chars "/old/path") ['\n']))
    ∧ ((update_activation_lines (chars "/new/path")
          [chars "export A\n", assignLine [] '=' (chars "/old/path") ['\n']])[1]?
          = some (assignLine [] '=' (chars "/new/path") ['\n'])
        ∧ ∀ (j : Nat) (line : List Char),
            ([chars "export A\n", assignLine [] '=' (chars "/old/path") ['\n']]
              : List (List Char))[j]? = some line →
            activationMatch line = none →
            (update_activation_lines (chars "/new/path")
              [chars "export A\n", assignLine [] '=' (chars "/old/path") ['\n']])[j]?
              = some line) :=
  ⟨⟨Or.inr (Or.inr rfl), by decide, by decide, by decide, rfl⟩,
    C1_per_line_payload_substitution (chars "/new/path") _ 1 [] '='
      (chars "/old/path") ['\n'] (Or.inr (Or.inr rfl)) (by decide) (by decide)
      (by decide) rfl⟩

/-! # Claim C9 -/

/-- **C9.**  The activation rewriter touches a line only when the whole
line matches the anchored assignment pattern: whenever the substitution
changes a line, the line decomposes as dialect keyword (starting at the
very first character) + `VIRTUAL_ENV` + separator + quoted payload +
whitespace-only tail.  In particular an indented assignment (its first
character would be whitespace, not the keyword's) or a line with
non-whitespace content after the closing quote (a trailing comment) can
never be rewritten. -/
theorem C9_rewrites_only_anchored_full_matches (np line : List Char)
    (h : activationSub np line ≠ line) :
    ∃ pfx sep payload ws, IsDialect pfx ∧ (sep = ' ' ∨ sep = '=')
      ∧ (∀ c ∈ ws, pyIsSpace c = true) ∧ payload.contains '\n' = false
      ∧ line = assignLine pfx sep payload ws := by
  cases hm : activationMatch line with
  | none => exact absurd (by simp [activationSub, hm]) h
  | some q =>
    obtain ⟨pfx, sep, payload, ws⟩ := q
    obtain ⟨hd, hsep, hws, hnl, hline⟩ := activationMatch_eq_some hm
    exact ⟨pfx, sep, payload, ws, hd, hsep, hws, hnl, hline⟩

/-- Witness for C9 at a concretely rewritten line. -/
theorem C9_rewrites_only_anchored_full_matches_witness :
    (activationSub (chars "/n") (chars "setenv VIRTUAL_ENV \"/o\"\n")
        ≠ chars "setenv VIRTUAL_ENV \"/o\"\n")
    ∧ ∃ pfx sep payload ws, IsDialect pfx ∧ (sep = ' ' ∨ sep = '=')
        ∧ (∀ c ∈ ws, pyIsSpace c = true) ∧ payload.contains '\n' = false
        ∧ chars "setenv VIRTUAL_ENV \"/o\"\n" = assignLine pfx sep payload ws :=
  ⟨by decide, C9_rewrites_only_anchored_full_matches (chars "/n")
    (chars "setenv VIRTUAL_ENV \"/o\"\n") (by decide)⟩

/-! # Claim C3 -/

/-- **C3.**  A generic script whose first line is the environment-agnostic
`#!/usr/bin/env python` directive (with or without a terminating newline)
is never modified, whatever the target path: its interpreter token
`/usr/bin/env` does not end in `/bin/python`, so the rewriter skips the
file. -/
theorem C3_env_python_never_modified (np : List Char) (others : List (List Char)) :
    update_script_lines np (chars "#!/usr/bin/env python\n" :: others)
      = chars "#!/usr/bin/env python\n" :: others
    ∧ update_script_lines np (chars "#!/usr/bin/env python" :: others)
      = chars "#!/usr/bin/env python" :: others :=
  ⟨rfl, rfl⟩

/-! # Claim C2 -/

/-- Tokens produced by `str.split()` are nonempty and hold no whitespace. -/
lemma pySplitAux_tokens :
    ∀ (s acc : List Char), (∀ c ∈ acc, pyIsSpace c = false) →
      ∀ t ∈ pySplitAux s acc, t ≠ [] ∧ ∀ c ∈ t, pyIsSpace c = false
  | [], acc, hacc => by
    intro t ht
    unfold pySplitAux at ht
    rcases acc with _ | ⟨a, acc⟩
    · simp at ht
    · simp only [List.isEmpty_cons, if_neg] at ht
      have : t = (a :: acc).reverse := by simpa using ht
      subst this
      refine ⟨by simp, fun c hc => hacc c ?_⟩
      simp only [List.mem_reverse] at hc
      exact hc
  | c :: cs, acc, hacc => by
    intro t ht
    unfold pySplitAux at ht
    by_cases hc : pyIsSpace c = true
    · rw [if_pos hc] at ht
      rcases acc with _ | ⟨a, acc⟩
      · simp only [List.isEmpty_nil, if_pos] at ht
        exact pySplitAux_tokens cs [] (by simp) t ht
      · simp only [List.isEmpty_cons, if_neg] at ht
        rcases (List.mem_cons).mp ht with h | h
        · subst h
          refine ⟨by simp, fun d hd => hacc d ?_⟩
          simp only [List.mem_reverse] at hd
          exact hd
        · exact pySplitAux_tokens cs [] (by simp) t h
    · rw [if_neg hc] at ht
      refine pySplitAux_tokens cs (c :: acc) ?_ t ht
      intro d hd
      rcases (List.mem_cons).mp hd with h | h
      · subst h; simpa using hc
      · exact hacc d h

lemma pySplit_tokens {s : List Char} :
    ∀ t ∈ pySplit s, t ≠ [] ∧ ∀ c ∈ t, pyIsSpace c = false :=
  pySplitAux_tokens s [] (by simp)

/-- Every character of a matched substring occurs in the haystack. -/
lemma isSubstring_subset :
    ∀ {n l : List Char}, isSubstring n l = true → ∀ c ∈ n, c ∈ l := by
  intro n l
  induction l with
  | nil =>
    intro h c hc
    unfold isSubstring at h
    rcases n with _ | _
    · simp at hc
    · simp [List.isEmpty] at h
  | cons d t ih =>
    intro h c hc
    unfold isSubstring at h
    rcases Bool.or_eq_true _ _ |>.mp h with hp | hs
    · have := eq_append_drop_of_isPrefixOf n (d :: t) hp
      rw [this]
      exact List.mem_append_left _ hc
    · exact List.mem_cons_of_mem d (ih hs c hc)

/-- The dead second disjunct of the source's skip test: a whitespace-free
token can never hold the substring `/usr/bin/env python` (which contains a
space). -/
lemma isSubstring_env_false {a0 : List Char}
    (h : ∀ c ∈ a0, pyIsSpace c = false) :
    isSubstring (chars "/usr/bin/env python") a0 = false := by
  by_contra hmem
  have htrue : isSubstring (chars "/usr/bin/env python") a0 = true := by
    simpa using hmem
  have hsp : ' ' ∈ a0 :=
    isSubstring_subset htrue ' ' (by decide)
  have : pyIsSpace ' ' = false := h ' ' hsp
  simp [pyIsSpace] at this

/-- `os.path.join(new_path, 'bin', 'python')` for a target path in the
shape the claims speak about (nonempty, not slash-terminated). -/
lemma osJoin_bin_python {np : List Char} (h1 : np ≠ [])
    (h2 : np.getLast? ≠ some '/') :
    osJoin (osJoin np (chars "bin")) (chars "python") = np ++ chars "/bin/python" := by
  have hb : isabs (chars "bin") = false := rfl
  have hp : isabs (chars "python") = false := rfl
  have hstep : osJoin np (chars "bin") = np ++ '/' :: chars "bin" := by
    unfold osJoin
    rw [hb, if_neg (by simp), if_neg h1, if_neg h2]
  rw [hstep]
  unfold osJoin
  rw [hp, if_neg (by simp),
    if_neg (by simp : ¬np ++ '/' :: chars "bin" = []),
    if_neg ?hlast, List.append_assoc]
  · rfl
  case hlast =>
    rw [List.getLast?_append_cons]
    decide

/-- **C2.**  A generic script whose first line is an interpreter directive
with first token `a0` ending in `/bin/python` is rewritten to a first line
holding `<new_path>/bin/python` followed by the surviving argument tokens,
and every later line is kept as-is. -/
theorem C2_shebang_interpreter_rewrite (np first a0 : List Char)
    (argtail others : List (List Char))
    (hpre : (chars "#!").isPrefixOf first = true)
    (hsplit : pySplit (pyStrip (first.drop 2)) = a0 :: argtail)
    (hsuf : (chars "/bin/python").isSuffixOf a0 = true)
    (hnp1 : np ≠ []) (hnp2 : np.getLast? ≠ some '/')
    (hne : np ++ chars "/bin/python" ≠ a0) :
    update_script_lines np (first :: others)
      = (chars "#!"
          ++ List.intercalate (chars " ") ((np ++ chars "/bin/python") :: argtail)
          ++ ['\n']) :: others := by
  have ha0 : ∀ c ∈ a0, pyIsSpace c = false := by
    have := pySplit_tokens (s := pyStrip (first.drop 2)) a0
      (by rw [hsplit]; exact List.mem_cons_self _ _)
    exact this.2
  simp only [update_script_lines, hpre, hsplit, Bool.not_true,
    Bool.false_eq_true, if_false, hsuf, isSubstring_env_false ha0,
    Bool.or_false, osJoin_bin_python hnp1 hnp2, if_neg hne]

/-- Witness for C2: the spec's own example, `#!/old/path/bin/python -O`
retargeted to `/new/path`. -/
theorem C2_shebang_interpreter_rewrite_witness :
    ((chars "#!").isPrefixOf (chars "#!/old/path/bin/python -O\n") = true
      ∧ pySplit (pyStrip ((chars "#!/old/path/bin/python -O\n").drop 2))
          = chars "/old/path/bin/python" :: [chars "-O"]
      ∧ (chars "/bin/python").isSuffixOf (chars "/old/path/bin/python") = true
      ∧ chars "/new/path" ≠ []
      ∧ (chars "/new/path").getLast? ≠ some '/'
      ∧ chars "/new/path" ++ chars "/bin/python" ≠ chars "/old/path/bin/python")
    ∧ update_script_lines (chars "/new/path")
        (chars "#!/old/path/bin/python -O\n" :: [chars "print(1)\n"])
      = (chars "#!"
          ++ List.intercalate (chars " ")
              ((chars "/new/path" ++ chars "/bin/python") :: [chars "-O"])
          ++ ['\n']) :: [chars "print(1)\n"] :=
  ⟨⟨by decide, by decide, by decide, by decide, by decide, by decide⟩,
    C2_shebang_interpreter_rewrite (chars "/new/path")
      (chars "#!/old/path/bin/python -O\n") (chars "/old/path/bin/python")
      [chars "-O"] [chars "print(1)\n"] (by decide) (by decide) (by decide)
      (by decide) (by decide) (by decide)⟩

/-! # Claim C6 -/

/-- The deletion log of the walk: one `D <path>` notice per matching file,
in walk order. -/
lemma remove_pycs_aux_log :
    ∀ (walk fs : List (List Char)),
      (remove_pycs_aux walk fs).2
        = (walk.filter isPycName).map (fun f => chars "D " ++ f)
  | [], _ => rfl
  | f :: walk, fs => by
    unfold remove_pycs_aux
    by_cases hf : isPycName f
    · simp [hf, remove_pycs_aux_log walk (fs.erase f)]
    · simp [hf, remove_pycs_aux_log walk fs]

/-- The file-set state after the walk: exactly the matching files of the
walked listing are gone. -/
lemma remove_pycs_aux_state :
    ∀ (walk fs : List (List Char)), fs.Nodup →
      (remove_pycs_aux walk fs).1
        = fs.filter (fun g => !(isPycName g && walk.contains g))
  | [], fs, _ => by
    refine Eq.symm ?_
    refine (List.filter_congr ?_).trans (List.filter_true fs)
    intro g _
    simp
  | f :: walk, fs, hnd => by
    unfold remove_pycs_aux
    by_cases hf : isPycName f
    · rw [if_pos hf]
      rw [remove_pycs_aux_state walk (fs.erase f) (hnd.erase f),
        hnd.erase_eq_filter, List.filter_filter]
      refine List.filter_congr ?_
      intro g _
      by_cases hg : g = f
      · subst hg
        simp [hf]
      · simp [List.contains_cons, hg, bne_iff_ne, Ne, hg]
    · rw [if_neg hf]
      rw [remove_pycs_aux_state walk fs hnd]
      refine List.filter_congr ?_
      intro g _
      by_cases hg : g = f
      · subst hg
        simp [List.contains_cons, hf]
      · simp [List.contains_cons, hg]

/-- **C6.**  After the bytecode-invalidation walk over the library tree's
(duplicate-free) file listing, every file whose name ends in `.pyc` or
`.pyo` is gone — each with one `D <path>` removal notice — and every other
file survives untouched. -/
theorem C6_bytecode_invalidation (files : List (List Char)) (h : files.Nodup) :
    (remove_pycs files).1 = files.filter (fun f => !isPycName f)
    ∧ (remove_pycs files).2
        = (files.filter isPycName).map (fun f => chars "D " ++ f) := by
  refine ⟨?_, remove_pycs_aux_log files files⟩
  rw [remove_pycs, remove_pycs_aux_state files files h]
  refine List.filter_congr ?_
  intro g hg
  have hc : files.contains g = true := List.elem_eq_true_of_mem hg
  simp only [hc, Bool.and_true]

/-- Witness for C6 on a small concrete tree listing. -/
theorem C6_bytecode_invalidation_witness :
    ([chars "/l/a.pyc", chars "/l/b.py", chars "/l/sub/c.pyo"]
      : List (List Char)).Nodup
    ∧ ((remove_pycs [chars "/l/a.pyc", chars "/l/b.py", chars "/l/sub/c.pyo"]).1
        = ([chars "/l/a.pyc", chars "/l/b.py", chars "/l/sub/c.pyo"]).filter
            (fun f => !isPycName f)
      ∧ (remove_pycs [chars "/l/a.pyc", chars "/l/b.py", chars "/l/sub/c.pyo"]).2
        = (([chars "/l/a.pyc", chars "/l/b.py", chars "/l/sub/c.pyo"]).filter
            isPycName).map (fun f => chars "D " ++ f)) :=
  ⟨by decide,
    C6_bytecode_invalidation
      [chars "/l/a.pyc", chars "/l/b.py", chars "/l/sub/c.pyo"] (by decide)⟩

/-! # Claim C7 -/

/-- The behaviour the normalizer guarantees for one `local/<name>` member:
wrong symlinks are repointed (with an `L` notice), correct symlinks are
left alone (no notice — no unnecessary write), and an absent or
non-symlink entry is never created or coerced. -/
def memberNormalized (before after : EntryState) (expected msg : List Char)
    (log : List (List Char)) : Prop :=
  (∀ t, t ≠ expected → before = .link t →
      after = .link expected ∧ msg ∈ log)
  ∧ (before = .link expected → after = before ∧ msg ∉ log)
  ∧ (before = .absent → after = .absent)
  ∧ (before = .nonLink → after = .nonLink)

/-- Distinct relative members of the same directory join to distinct
paths. -/
lemma osJoin_ne_of_ne (d : List Char) {b c : List Char}
    (hb : isabs b = false) (hc : isabs c = false) (hbc : b ≠ c) :
    osJoin d b ≠ osJoin d c := by
  unfold osJoin
  rw [hb, hc]
  simp only [Bool.false_eq_true, if_false]
  by_cases h1 : d = []
  · simpa [h1] using hbc
  · by_cases h2 : d.getLast? = some '/'
    · simp only [h1, if_false, h2, if_true, ne_eq, List.append_cancel_left_eq]
      exact hbc
    · simp only [h1, h2, if_false, ne_eq, List.append_cancel_left_eq,
        List.cons.injEq, true_and]
      exact hbc

/-- **C7, counterexample.**  The claim asserts that after normalization
each `local/<name>` link exists and points at `../<name>`.  But an absent
entry is never created: with `local/` present and no `local/bin` entry at
all, the normalizer leaves it absent, so no link to `../bin` exists. -/
theorem C7_counterexample :
    (update_local (chars "/env")
        ⟨true, .absent, .link (chars "../lib"), .link (chars "../include")⟩).1.bin
      = EntryState.absent
    ∧ (update_local (chars "/env")
        ⟨true, .absent, .link (chars "../lib"), .link (chars "../include")⟩).1.bin
      ≠ EntryState.link (chars "../bin") := by decide

/-- **C7, amended.**  After the normalizer runs on a root with a `local/`
directory: every member that was a symlink ends up a symlink on the
expected target `../<name>` (repointed with an `L <path>` notice exactly
when it was wrong, untouched with no notice when already correct), and a
member that was absent or not a symlink is left exactly as it was (the
claimed invariant "the link exists" holds only for members that were
symlinks to begin with). -/
theorem C7_link_farm_normalization (base : List Char) (l : LocalDir)
    (h : l.present = true) :
    memberNormalized l.bin (update_local base l).1.bin (chars "../bin")
        (chars "L " ++ osJoin (osJoin base (chars "local")) (chars "bin"))
        (update_local base l).2
    ∧ memberNormalized l.lib (update_local base l).1.lib (chars "../lib")
        (chars "L " ++ osJoin (osJoin base (chars "local")) (chars "lib"))
        (update_local base l).2
    ∧ memberNormalized l.inc (update_local base l).1.inc (chars "../include")
        (chars "L " ++ osJoin (osJoin base (chars "local")) (chars "include"))
        (update_local base l).2 := by
  obtain ⟨pres, bin, lib, inc⟩ := l
  subst h
  have hne1 : osJoin (osJoin base (chars "local")) (chars "bin")
      ≠ osJoin (osJoin base (chars "local")) (chars "lib") :=
    osJoin_ne_of_ne _ rfl rfl (by decide)
  have hne2 : osJoin (osJoin base (chars "local")) (chars "bin")
      ≠ osJoin (osJoin base (chars "local")) (chars "include") :=
    osJoin_ne_of_ne _ rfl rfl (by decide)
  have hne3 : osJoin (osJoin base (chars "local")) (chars "lib")
      ≠ osJoin (osJoin base (chars "local")) (chars "include") :=
    osJoin_ne_of_ne _ rfl rfl (by decide)
  refine ⟨⟨?_, ?_, ?_, ?_⟩, ⟨?_, ?_, ?_, ?_⟩, ⟨?_, ?_, ?_, ?_⟩⟩ <;>
    first
    | (intro t ht hb; subst hb;
       simp [update_local, fixLocalLink, ht, hne1, hne2, hne3,
         hne1.symm, hne2.symm, hne3.symm])
    | (intro hb; subst hb;
       simp [update_local, fixLocalLink, hne1, hne2, hne3,
         hne1.symm, hne2.symm, hne3.symm])

/-- Witness for C7: a wrong `local/bin` link is repointed, a correct
`local/lib` link and a non-symlink `local/include` entry are untouched. -/
theorem C7_link_farm_normalization_witness :
    (let l : LocalDir :=
      ⟨true, .link (chars "../wrong"), .link (chars "../lib"), .nonLink⟩
     let b := chars "/v"
     l.present = true
     ∧ (memberNormalized l.bin (update_local b l).1.bin (chars "../bin")
          (chars "L " ++ osJoin (osJoin b (chars "local")) (chars "bin"))
          (update_local b l).2
        ∧ memberNormalized l.lib (update_local b l).1.lib (chars "../lib")
            (chars "L " ++ osJoin (osJoin b (chars "local")) (chars "lib"))
            (update_local b l).2
        ∧ memberNormalized l.inc (update_local b l).1.inc (chars "../include")
            (chars "L " ++ osJoin (osJoin b (chars "local")) (chars "include"))
            (update_local b l).2)) :=
  ⟨rfl, C7_link_farm_normalization (chars "/v")
    ⟨true, .link (chars "../wrong"), .link (chars "../lib"), .nonLink⟩ rfl⟩

/-! # Claim C8 -/

/-- The insertion loop builds, in order, the filtered environment. -/
lemma reinit_new_env_foldl :
    ∀ (l acc : List (List Char × List Char)),
      l.foldl (fun acc kv =>
          if (chars "VIRTUALENV_").isPrefixOf kv.1 then acc else acc ++ [kv]) acc
        = acc ++ l.filter (fun kv => !(chars "VIRTUALENV_").isPrefixOf kv.1)
  | [], acc => by simp
  | kv :: l, acc => by
    simp only [List.foldl_cons, List.filter_cons]
    by_cases h : (chars "VIRTUALENV_").isPrefixOf kv.1 = true
    · rw [if_pos h, if_neg (by simp [h]), reinit_new_env_foldl l acc]
    · have hb : (chars "VIRTUALENV_").isPrefixOf kv.1 = false := by
        cases hx : (chars "VIRTUALENV_").isPrefixOf kv.1
        · rfl
        · exact absurd hx h
      rw [if_neg h, if_pos (by simp [hb]), reinit_new_env_foldl l (acc ++ [kv])]
      simp

lemma reinit_new_env_eq_filter (environ : List (List Char × List Char)) :
    reinit_new_env environ
      = environ.filter (fun kv => !(chars "VIRTUALENV_").isPrefixOf kv.1) := by
  rw [reinit_new_env, reinit_new_env_foldl environ []]
  rfl

/-- On any successful run, the environment handed to the spawned process
is the filter of the ambient one (the ambient mapping itself is passed by
value and never written to). -/
lemma reinitialize_env_component {fs : ReinitFS} {path sp : List Char}
    {environ : List (List Char × List Char)} {args : List (List Char)}
    {env : List (List Char × List Char)}
    (h : reinitialize_virtualenv fs path sp environ = some (args, env)) :
    env = reinit_new_env environ := by
  unfold reinitialize_virtualenv at h
  split at h
  · exact absurd h (by simp)
  · split at h
    · exact absurd h (by simp)
    · exact (congrArg Prod.snd (Option.some.inj h)).symm

/-- **C8.**  The mapping passed to the external environment-creation tool
contains exactly the entries of the current process environment whose
names do not start with `VIRTUALENV_` (and the construction only reads
the ambient environment — it builds a fresh mapping rather than mutating
in place). -/
theorem C8_reserved_env_filtering (fs : ReinitFS) (path sp : List Char)
    (environ : List (List Char × List Char))
    (args : List (List Char)) (env : List (List Char × List Char))
    (kv : List Char × List Char)
    (h : reinitialize_virtualenv fs path sp environ = some (args, env)) :
    kv ∈ env ↔ kv ∈ environ ∧ (chars "VIRTUALENV_").isPrefixOf kv.1 = false := by
  rw [reinitialize_env_component h, reinit_new_env_eq_filter]
  simp [List.mem_filter]

/-- Witness for C8: a reserved-prefixed variable is dropped and an
ordinary one kept. -/
theorem C8_reserved_env_filtering_witness :
    reinitialize_virtualenv ⟨true, [chars "python2.7"], [], false⟩
        (chars "/env") (chars "/usr/bin/python2")
        [(chars "PATH", chars "/bin"), (chars "VIRTUALENV_X", chars "1")]
      = some ([chars "virtualenv", chars "-p", chars "/usr/bin/python2",
               chars "--system-site-packages", chars "/env"],
              [(chars "PATH", chars "/bin")])
    ∧ ((chars "PATH", chars "/bin")
          ∈ [(chars "PATH", chars "/bin")]
        ↔ (chars "PATH", chars "/bin")
            ∈ [(chars "PATH", chars "/bin"), (chars "VIRTUALENV_X", chars "1")]
          ∧ (chars "VIRTUALENV_").isPrefixOf (chars "PATH", chars "/bin").1
              = false) :=
  ⟨by decide,
    C8_reserved_env_filtering ⟨true, [chars "python2.7"], [], false⟩
      (chars "/env") (chars "/usr/bin/python2")
      [(chars "PATH", chars "/bin"), (chars "VIRTUALENV_X", chars "1")]
      [chars "virtualenv", chars "-p", chars "/usr/bin/python2",
        chars "--system-site-packages", chars "/env"]
      [(chars "PATH", chars "/bin")] (chars "PATH", chars "/bin") (by decide)⟩

/-! # Claim C10 -/

/-- Each loop pass appends one `--distribute` per matching artifact. -/
lemma count_distribute_foldl (P : List Char → Bool) :
    ∀ (l : List (List Char)) (init : List (List Char)),
      ((l.foldl (fun a n =>
          if P n then a ++ [chars "--distribute"] else a) init).count
        (chars "--distribute"))
        = init.count (chars "--distribute") + (l.filter P).length
  | [], init => by simp
  | n :: l, init => by
    simp only [List.foldl_cons, List.filter_cons]
    by_cases h : P n = true
    · rw [if_pos h, count_distribute_foldl P l (init ++ [chars "--distribute"]),
        List.count_append, if_pos h]
      simp [List.count_cons]
      omega
    · rw [if_neg (by simp [h]), count_distribute_foldl P l init, if_neg (by simp [h])]

/-- The argument list of any successful run, made explicit. -/
lemma reinitialize_args_component {fs : ReinitFS} {path sp : List Char}
    {environ : List (List Char × List Char)} {args : List (List Char)}
    {env : List (List Char × List Char)}
    (h : reinitialize_virtualenv fs path sp environ = some (args, env)) :
    args = (fs.verDirEntries.foldl (fun a filename =>
        if (chars "distribute-").isPrefixOf filename
            && (chars ".egg").isSuffixOf filename then
          a ++ [chars "--distribute"]
        else a)
        (if !fs.hasNoGlobalMarker then
          [chars "virtualenv", chars "-p", sp] ++ [chars "--system-site-packages"]
        else [chars "virtualenv", chars "-p", sp])) ++ [path] := by
  unfold reinitialize_virtualenv at h
  split at h
  · exact absurd h (by simp)
  · split at h
    · exact absurd h (by simp)
    · exact (congrArg Prod.fst (Option.some.inj h)).symm

/-- **C10.**  The reinitializer appends `--distribute` once per file of
the versioned library directory whose name starts with `distribute-` and
ends with `.egg`: with `n` such files the flag occurs `n` times in the
spawned argument list (not at most once). -/
theorem C10_distribute_flag_per_artifact (fs : ReinitFS) (path sp : List Char)
    (environ : List (List Char × List Char))
    (args : List (List Char)) (env : List (List Char × List Char))
    (h : reinitialize_virtualenv fs path sp environ = some (args, env))
    (hsp : sp ≠ chars "--distribute") (hpath : path ≠ chars "--distribute") :
    args.count (chars "--distribute")
      = (fs.verDirEntries.filter (fun n =>
          (chars "distribute-").isPrefixOf n
            && (chars ".egg").isSuffixOf n)).length := by
  rw [reinitialize_args_component h, List.count_append, count_distribute_foldl]
  have hinit : ∀ b : Bool,
      ((if !b then
          [chars "virtualenv", chars "-p", sp] ++ [chars "--system-site-packages"]
        else [chars "virtualenv", chars "-p", sp]).count
        (chars "--distribute")) = 0 := by
    intro b
    cases b <;> simp [List.count_cons, List.count_nil, hsp] <;> decide
  rw [hinit]
  simp [List.count_cons, hpath]

/-- Witness for C10: two matching eggs, one non-matching file — the flag
appears twice. -/
theorem C10_distribute_flag_per_artifact_witness :
    reinitialize_virtualenv
        ⟨true, [chars "python2.7"],
          [chars "distribute-0.6.10.egg", chars "setup.py",
           chars "distribute-0.6.14.egg"], true⟩
        (chars "/env") (chars "/usr/bin/python") []
      = some ([chars "virtualenv", chars "-p", chars "/usr/bin/python",
               chars "--distribute", chars "--distribute", chars "/env"], [])
    ∧ chars "/usr/bin/python" ≠ chars "--distribute"
    ∧ chars "/env" ≠ chars "--distribute"
    ∧ ([chars "virtualenv", chars "-p", chars "/usr/bin/python",
        chars "--distribute", chars "--distribute", chars "/env"].count
          (chars "--distribute")
        = (([chars "distribute-0.6.10.egg", chars "setup.py",
             chars "distribute-0.6.14.egg"] : List (List Char)).filter (fun n =>
            (chars "distribute-").isPrefixOf n
              && (chars ".egg").isSuffixOf n)).length) :=
  ⟨by decide, by decide, by decide,
    C10_distribute_flag_per_artifact
      ⟨true, [chars "python2.7"],
        [chars "distribute-0.6.10.egg", chars "setup.py",
         chars "distribute-0.6.14.egg"], true⟩
      (chars "/env") (chars "/usr/bin/python") []
      [chars "virtualenv", chars "-p", chars "/usr/bin/python",
        chars "--distribute", chars "--distribute", chars "/env"] []
      (by decide) (by decide) (by decide)⟩

/-! # Claim C5 -/

/-- **C5.**  If the target path is relative, or the root has no `lib/`
directory, no `lib/python<x>.<y>` entry, no `bin/` directory, or no
`bin/python` file, then `update_paths` returns failure, prints a single
`error: ...` line, and the filesystem state is bit-for-bit the input
state: no file is rewritten, deleted or relinked. -/
theorem C5_validation_failure_no_mutation (base : List Char) (env : VEnvFS)
    (np : List Char)
    (h : isabs np = false ∨ env.libIsDir = false
        ∨ env.libEntries.find? pybinMatch = none
        ∨ env.binIsDir = false ∨ env.binHasPythonFile = false) :
    (update_paths base env np).1 = false
    ∧ (update_paths base env np).2.1 = env
    ∧ ∃ m, (update_paths base env np).2.2 = [m]
        ∧ (chars "error: ").isPrefixOf m = true := by
  unfold update_paths
  by_cases habs : isabs np = true
  · rw [habs]
    have hcond : ((if env.libIsDir then env.libEntries.find? pybinMatch
          else none).isNone || !env.binIsDir || !env.binHasPythonFile) = true := by
      rcases h with h | h | h | h | h
      · exact absurd habs (by simp [h])
      · simp [h]
      · by_cases hl : env.libIsDir = true <;> simp [hl, h]
      · simp [h]
      · simp [h]
    simp only [Bool.not_true, Bool.false_eq_true, if_false, hcond, if_true]
    exact ⟨trivial, trivial, _, rfl, isPrefixOf_append_self _ _⟩
  · have habs' : isabs np = false := by
      cases hx : isabs np
      · rfl
      · exact absurd hx habs
    rw [habs']
    simp only [Bool.not_false, if_true]
    exact ⟨trivial, trivial, _, rfl, isPrefixOf_append_self _ _⟩

/-- Witness for C5: a relative target path fails and mutates nothing. -/
theorem C5_validation_failure_no_mutation_witness :
    (isabs (chars "relative/path") = false
      ∨ (⟨true, [⟨chars "activate", [chars "VIRTUAL_ENV=\"/old\"\n"]⟩],
          true, true, [chars "python2.7"], [chars "/l/a.pyc"],
          ⟨false, .absent, .absent, .absent⟩⟩ : VEnvFS).libIsDir = false
      ∨ (⟨true, [⟨chars "activate", [chars "VIRTUAL_ENV=\"/old\"\n"]⟩],
          true, true, [chars "python2.7"], [chars "/l/a.pyc"],
          ⟨false, .absent, .absent, .absent⟩⟩ : VEnvFS).libEntries.find? pybinMatch
          = none
      ∨ (⟨true, [⟨chars "activate", [chars "VIRTUAL_ENV=\"/old\"\n"]⟩],
          true, true, [chars "python2.7"], [chars "/l/a.pyc"],
          ⟨false, .absent, .absent, .absent⟩⟩ : VEnvFS).binIsDir = false
      ∨ (⟨true, [⟨chars "activate", [chars "VIRTUAL_ENV=\"/old\"\n"]⟩],
          true, true, [chars "python2.7"], [chars "/l/a.pyc"],
          ⟨false, .absent, .absent, .absent⟩⟩ : VEnvFS).binHasPythonFile = false)
    ∧ ((update_paths (chars "/v")
          ⟨true, [⟨chars "activate", [chars "VIRTUAL_ENV=\"/old\"\n"]⟩],
            true, true, [chars "python2.7"], [chars "/l/a.pyc"],
            ⟨false, .absent, .absent, .absent⟩⟩ (chars "relative/path")).1 = false
        ∧ (update_paths (chars "/v")
            ⟨true, [⟨chars "activate", [chars "VIRTUAL_ENV=\"/old\"\n"]⟩],
              true, true, [chars "python2.7"], [chars "/l/a.pyc"],
              ⟨false, .absent, .absent, .absent⟩⟩ (chars "relative/path")).2.1
          = ⟨true, [⟨chars "activate", [chars "VIRTUAL_ENV=\"/old\"\n"]⟩],
              true, true, [chars "python2.7"], [chars "/l/a.pyc"],
              ⟨false, .absent, .absent, .absent⟩⟩
        ∧ ∃ m, (update_paths (chars "/v")
            ⟨true, [⟨chars "activate", [chars "VIRTUAL_ENV=\"/old\"\n"]⟩],
              true, true, [chars "python2.7"], [chars "/l/a.pyc"],
              ⟨false, .absent, .absent, .absent⟩⟩ (chars "relative/path")).2.2
            = [m] ∧ (chars "error: ").isPrefixOf m = true) :=
  ⟨Or.inl (by decide),
    C5_validation_failure_no_mutation (chars "/v")
      ⟨true, [⟨chars "activate", [chars "VIRTUAL_ENV=\"/old\"\n"]⟩],
        true, true, [chars "python2.7"], [chars "/l/a.pyc"],
        ⟨false, .absent, .absent, .absent⟩⟩ (chars "relative/path")
      (Or.inl (by decide))⟩

/-! # Claim C4

The second run of the rewrite flow re-parses what the first run wrote.
The lemmas below establish the parse/print round trip for the shebang
line: splitting the space-joined token list recovers the tokens, and
stripping never changes what `split` sees. -/

lemma pySplitAux_all_ws :
    ∀ (w acc : List Char), (∀ c ∈ w, pyIsSpace c = true) →
      pySplitAux w acc = if acc.isEmpty then [] else [acc.reverse]
  | [], acc, _ => by simp [pySplitAux]
  | c :: w, acc, h => by
    have hc : pyIsSpace c = true := h c (by simp)
    have ih := pySplitAux_all_ws w [] (fun d hd => h d (by simp [hd]))
    by_cases ha : acc.isEmpty = true <;> simp [pySplitAux, hc, ha, ih]

/-- Trailing whitespace never contributes tokens. -/
lemma pySplitAux_append_ws (w : List Char) (hw : ∀ c ∈ w, pyIsSpace c = true) :
    ∀ (s acc : List Char), pySplitAux (s ++ w) acc = pySplitAux s acc
  | [], acc => by
    rw [List.nil_append, pySplitAux_all_ws w acc hw]
    simp [pySplitAux]
  | c :: s, acc => by
    have ih1 := pySplitAux_append_ws w hw s []
    have ih2 := pySplitAux_append_ws w hw s (c :: acc)
    by_cases hc : pyIsSpace c = true <;> by_cases ha : acc.isEmpty = true <;>
      simp [pySplitAux, hc, ha, ih1, ih2]

/-- Leading whitespace never contributes tokens. -/
lemma pySplitAux_dropWhile_ws :
    ∀ (s : List Char), pySplitAux (s.dropWhile pyIsSpace) [] = pySplitAux s []
  | [] => rfl
  | c :: s => by
    by_cases hc : pyIsSpace c = true
    · rw [List.dropWhile_cons_of_pos hc, pySplitAux_dropWhile_ws s]
      simp [pySplitAux, hc]
    · rw [List.dropWhile_cons_of_neg (by simp [hc])]

/-- `str.strip()` before `str.split()` is a no-op on the token list. -/
lemma pySplit_pyStrip (s : List Char) : pySplit (pyStrip s) = pySplit s := by
  unfold pySplit pyStrip
  set u := s.dropWhile pyIsSpace with hu
  have hsplitu : u.reverse.takeWhile pyIsSpace ++ u.reverse.dropWhile pyIsSpace
      = u.reverse := List.takeWhile_append_dropWhile pyIsSpace u.reverse
  have hu2 : u = (u.reverse.dropWhile pyIsSpace).reverse
      ++ (u.reverse.takeWhile pyIsSpace).reverse := by
    conv_lhs => rw [← List.reverse_reverse u, ← hsplitu]
    rw [List.reverse_append]
  calc pySplitAux (u.reverse.dropWhile pyIsSpace).reverse []
      = pySplitAux ((u.reverse.dropWhile pyIsSpace).reverse
          ++ (u.reverse.takeWhile pyIsSpace).reverse) [] := by
        rw [pySplitAux_append_ws _ (fun c hc => List.mem_takeWhile_imp
          (by simpa using hc))]
    _ = pySplitAux u [] := by rw [← hu2]
    _ = pySplitAux s [] := by rw [hu, pySplitAux_dropWhile_ws s]

/-- Consuming one whitespace-free token. -/
lemma pySplitAux_token :
    ∀ (t : List Char), (∀ c ∈ t, pyIsSpace c = false) →
      ∀ (cs acc : List Char), pySplitAux (t ++ cs) acc = pySplitAux cs (t.reverse ++ acc)
  | [], _, cs, acc => by simp
  | c :: t, h, cs, acc => by
    have hc : pyIsSpace c = false := h c (by simp)
    have step : pySplitAux ((c :: t) ++ cs) acc = pySplitAux (t ++ cs) (c :: acc) := by
      simp [pySplitAux, hc]
    rw [step, pySplitAux_token t (fun d hd => h d (by simp [hd])) cs (c :: acc),
      List.reverse_cons, List.append_assoc, List.singleton_append]

/-- Splitting a space-joined list of nonempty whitespace-free tokens
recovers exactly the tokens. -/
lemma pySplit_intercalate :
    ∀ (toks : List (List Char)), toks ≠ [] →
      (∀ t ∈ toks, t ≠ [] ∧ ∀ c ∈ t, pyIsSpace c = false) →
      pySplit (List.intercalate (chars " ") toks) = toks
  | [], h, _ => absurd rfl h
  | [t], _, hts => by
    have ht := hts t (by simp)
    have h1 : List.intercalate (chars " ") [t] = t := by
      simp [List.intercalate]
    rw [h1]
    unfold pySplit
    conv_lhs => rw [← List.append_nil t]
    rw [pySplitAux_token t ht.2 [] []]
    simp [pySplitAux, ht.1]
  | t :: t2 :: rest, _, hts => by
    have h1 : List.intercalate (chars " ") (t :: t2 :: rest)
        = t ++ ' ' :: List.intercalate (chars " ") (t2 :: rest) := by
      show List.intercalate [' '] (t :: t2 :: rest)
        = t ++ ' ' :: List.intercalate [' '] (t2 :: rest)
      simp [List.intercalate, List.intersperse_cons_cons]
    rw [h1]
    unfold pySplit
    rw [pySplitAux_token t (hts t (by simp)).2 _ []]
    have hsp : pyIsSpace ' ' = true := rfl
    have step : pySplitAux (' ' :: List.intercalate (chars " ") (t2 :: rest))
        (t.reverse ++ [])
        = t :: pySplitAux (List.intercalate (chars " ") (t2 :: rest)) [] := by
      simp [pySplitAux, hsp, (hts t (by simp)).1]
    rw [step]
    have ih := pySplit_intercalate (t2 :: rest) (by simp)
      (fun x hx => hts x (by simp [hx]))
    unfold pySplit at ih
    rw [ih]

/-- Joining never makes a path empty (its last component is not). -/
lemma osJoin_ne_nil {a b : List Char} (hb : b ≠ []) : osJoin a b ≠ [] := by
  unfold osJoin
  split
  · exact hb
  · split
    · exact hb
    · split <;> simp [hb]

/-- Joining whitespace-free components gives a whitespace-free path. -/
lemma osJoin_no_ws {a b : List Char} (ha : ∀ c ∈ a, pyIsSpace c = false)
    (hb : ∀ c ∈ b, pyIsSpace c = false) :
    ∀ c ∈ osJoin a b, pyIsSpace c = false := by
  intro c hc
  unfold osJoin at hc
  split at hc
  · exact hb c hc
  · split at hc
    · exact hb c hc
    · split at hc <;> rcases List.mem_append.mp hc with h | h
      · exact ha c h
      · exact hb c h
      · exact ha c h
      · rcases List.mem_cons.mp h with h | h
        · subst h; rfl
        · exact hb c h

/-- Every run of the shebang rewriter either leaves the file alone or
replaces the first line by the rebuilt `#!`-line whose tokens are the
joined new interpreter path followed by the original trailing tokens. -/
lemma update_script_lines_cases (np first : List Char) (rest : List (List Char)) :
    update_script_lines np (first :: rest) = first :: rest
    ∨ ∃ a0 argtail, pySplit (pyStrip (first.drop 2)) = a0 :: argtail
        ∧ update_script_lines np (first :: rest)
            = (chars "#!" ++ List.intercalate (chars " ")
                (osJoin (osJoin np (chars "bin")) (chars "python") :: argtail)
                ++ ['\n']) :: rest := by
  by_cases h1 : (chars "#!").isPrefixOf first = true
  · cases hsp : pySplit (pyStrip (first.drop 2)) with
    | nil =>
      left
      simp [update_script_lines, h1, hsp]
    | cons a0 argtail =>
      by_cases h2 : ((!((chars "/bin/python").isSuffixOf a0))
          || isSubstring (chars "/usr/bin/env python") a0) = true
      · left
        simp [update_script_lines, h1, hsp, h2]
      · by_cases h3 : osJoin (osJoin np (chars "bin")) (chars "python") = a0
        · left
          simp [update_script_lines, h1, hsp, h2, h3]
        · right
          refine ⟨a0, argtail, rfl, ?_⟩
          simp [update_script_lines, h1, hsp, h2, h3]
  · left
    simp [update_script_lines, h1]

/-- Rerunning the shebang rewriter on its own output is a no-op, provided
the target path holds no whitespace (`str.split` would cut a
whitespace-bearing path back into several tokens). -/
lemma update_script_lines_idem (np : List Char)
    (hnp : ∀ c ∈ np, pyIsSpace c = false) :
    ∀ lines, update_script_lines np (update_script_lines np lines)
      = update_script_lines np lines := by
  intro lines
  cases lines with
  | nil => rfl
  | cons first rest =>
    rcases update_script_lines_cases np first rest with hid | ⟨a0, argtail, hsp, hres⟩
    · rw [hid]
      exact hid
    · rw [hres]
      -- the rewritten first line re-parses to the same tokens
      set new_bin := osJoin (osJoin np (chars "bin")) (chars "python") with hnb
      have hnb_ne : new_bin ≠ [] :=
        osJoin_ne_nil (by simp [chars])
      have hnb_ws : ∀ c ∈ new_bin, pyIsSpace c = false :=
        osJoin_no_ws (osJoin_no_ws hnp (by decide)) (by decide)
      have htoks : ∀ t ∈ new_bin :: argtail,
          t ≠ [] ∧ ∀ c ∈ t, pyIsSpace c = false := by
        intro t ht
        rcases List.mem_cons.mp ht with h | h
        · subst h; exact ⟨hnb_ne, hnb_ws⟩
        · refine pySplit_tokens (s := pyStrip (first.drop 2)) t ?_
          rw [hsp]
          exact List.mem_cons_of_mem a0 h
      have hdrop2 : (chars "#!" ++ (List.intercalate (chars " ")
            (new_bin :: argtail) ++ ['\n'])).drop 2
          = List.intercalate (chars " ") (new_bin :: argtail) ++ ['\n'] := rfl
      have hreparse : pySplit (pyStrip
            ((chars "#!" ++ List.intercalate (chars " ") (new_bin :: argtail)
              ++ ['\n']).drop 2))
          = new_bin :: argtail := by
        rw [List.append_assoc, hdrop2, pySplit_pyStrip]
        show pySplitAux _ [] = _
        rw [pySplitAux_append_ws ['\n'] (by decide)]
        have := pySplit_intercalate (new_bin :: argtail) (by simp) htoks
        unfold pySplit at this
        exact this
      rcases update_script_lines_cases np
          (chars "#!" ++ List.intercalate (chars " ") (new_bin :: argtail)
            ++ ['\n']) rest with hid2 | ⟨a0', argtail', hsp', hres'⟩
      · exact hid2
      · rw [hreparse] at hsp'
        obtain ⟨h1, h2⟩ := List.cons.inj hsp'
        rw [← h2, ← hnb] at hres'
        exact hres'

/-- Rerunning the activation rewriter on a whole file is a no-op. -/
lemma update_activation_lines_idem (np : List Char) (lines : List (List Char)) :
    update_activation_lines np (update_activation_lines np lines)
      = update_activation_lines np lines := by
  unfold update_activation_lines
  rw [List.map_map]
  exact List.map_congr_left (fun l _ => activationSub_idem np l)

/-- Rerunning the whole `bin/` pass on its own output changes nothing. -/
lemma update_scripts_idem (np : List Char)
    (hnp : ∀ c ∈ np, pyIsSpace c = false) (entries : List BinEntry) :
    update_scripts np (update_scripts np entries) = update_scripts np entries := by
  unfold update_scripts
  rw [List.map_map]
  refine List.map_congr_left ?_
  intro e _
  by_cases hm : e.name ∈ ACTIVATION_SCRIPTS
  · simp only [Function.comp, hm, if_pos]
    simp [hm, update_activation_lines_idem]
  · simp only [Function.comp, hm, if_neg]
    simp [hm, update_script_lines_idem np hnp]

/-- The success branch of the orchestrator, spelled out. -/
lemma update_paths_success (base : List Char) (env : VEnvFS) (np : List Char)
    (habs : isabs np = true)
    (hcond : ((if env.libIsDir then env.libEntries.find? pybinMatch
        else none).isNone || !env.binIsDir || !env.binHasPythonFile) = false) :
    update_paths base env np
      = (true,
          { env with
              binEntries := update_scripts np env.binEntries,
              libFiles := (remove_pycs env.libFiles).1,
              localDir := (update_local base env.localDir).1 },
          update_scripts_log (osJoin base (chars "bin")) np env.binEntries
            ++ (remove_pycs env.libFiles).2
            ++ (update_local base env.localDir).2) := by
  simp [update_paths, habs, hcond]

/-- **C4, counterexample.**  The claim quantifies over *every* absolute
path `P`.  For a target path holding whitespace whose first token ends in
`/bin/python` — here `/q/bin/python /z`, absolute in the POSIX sense — the
second run re-splits the rewritten directive, sees first token
`/q/bin/python` ≠ the joined interpreter path, and rewrites again: the
script keeps growing, so the second run is not a no-op. -/
theorem C4_counterexample :
    isabs (chars "/q/bin/python /z") = true
    ∧ (update_paths (chars "/v")
          ⟨true, [⟨chars "runme", [chars "#!/old/bin/python\n"]⟩], true, true,
            [chars "python2.7"], [], ⟨false, .absent, .absent, .absent⟩⟩
          (chars "/q/bin/python /z")).1 = true
    ∧ (update_paths (chars "/v")
        (update_paths (chars "/v")
          ⟨true, [⟨chars "runme", [chars "#!/old/bin/python\n"]⟩], true, true,
            [chars "python2.7"], [], ⟨false, .absent, .absent, .absent⟩⟩
          (chars "/q/bin/python /z")).2.1
        (chars "/q/bin/python /z")).2.1.binEntries
      ≠ (update_paths (chars "/v")
          ⟨true, [⟨chars "runme", [chars "#!/old/bin/python\n"]⟩], true, true,
            [chars "python2.7"], [], ⟨false, .absent, .absent, .absent⟩⟩
          (chars "/q/bin/python /z")).2.1.binEntries := by decide

/-- **C4, amended.**  For every valid environment and every absolute
target path *containing no whitespace*, running the rewrite flow twice
leaves every script of the `bin/` directory identical after the second
run: the second pass re-parses exactly what the first one wrote and skips
every file. -/
theorem C4_second_run_no_op_on_scripts (base : List Char) (env : VEnvFS)
    (np verdir : List Char)
    (habs : isabs np = true)
    (hws : ∀ c ∈ np, pyIsSpace c = false)
    (hlib : env.libIsDir = true)
    (hfind : env.libEntries.find? pybinMatch = some verdir)
    (hbin : env.binIsDir = true) (hpy : env.binHasPythonFile = true) :
    (update_paths base (update_paths base env np).2.1 np).2.1.binEntries
      = (update_paths base env np).2.1.binEntries := by
  have hcond : ((if env.libIsDir then env.libEntries.find? pybinMatch
      else none).isNone || !env.binIsDir || !env.binHasPythonFile) = false := by
    simp [hlib, hfind, hbin, hpy]
  rw [update_paths_success base env np habs hcond,
    update_paths_success base _ np habs (by simpa using hcond)]
  simp [update_scripts_idem np hws]

/-- Witness for C4 on a small valid environment with one activation script
and one generic script. -/
theorem C4_second_run_no_op_on_scripts_witness :
    (isabs (chars "/new/venv") = true
      ∧ (∀ c ∈ chars "/new/venv", pyIsSpace c = false)
      ∧ (⟨true,
          [⟨chars "activate", [chars "VIRTUAL_ENV=\"/old/venv\"\n"]⟩,
           ⟨chars "runme", [chars "#!/old/venv/bin/python -O\n", chars "x\n"]⟩],
          true, true, [chars "python2.7"], [chars "/lib/m.pyc"],
          ⟨false, .absent, .absent, .absent⟩⟩ : VEnvFS).libIsDir = true
      ∧ (⟨true,
          [⟨chars "activate", [chars "VIRTUAL_ENV=\"/old/venv\"\n"]⟩,
           ⟨chars "runme", [chars "#!/old/venv/bin/python -O\n", chars "x\n"]⟩],
          true, true, [chars "python2.7"], [chars "/lib/m.pyc"],
          ⟨false, .absent, .absent, .absent⟩⟩ : VEnvFS).libEntries.find? pybinMatch
          = some (chars "python2.7")
      ∧ (⟨true,
          [⟨chars "activate", [chars "VIRTUAL_ENV=\"/old/venv\"\n"]⟩,
           ⟨chars "runme", [chars "#!/old/venv/bin/python -O\n", chars "x\n"]⟩],
          true, true, [chars "python2.7"], [chars "/lib/m.pyc"],
          ⟨false, .absent, .absent, .absent⟩⟩ : VEnvFS).binIsDir = true
      ∧ (⟨true,
          [⟨chars "activate", [chars "VIRTUAL_ENV=\"/old/venv\"\n"]⟩,
           ⟨chars "runme", [chars "#!/old/venv/bin/python -O\n", chars "x\n"]⟩],
          true, true, [chars "python2.7"], [chars "/lib/m.pyc"],
          ⟨false, .absent, .absent, .absent⟩⟩ : VEnvFS).binHasPythonFile = true)
    ∧ (update_paths (chars "/v")
        (update_paths (chars "/v")
          ⟨true,
            [⟨chars "activate", [chars "VIRTUAL_ENV=\"/old/venv\"\n"]⟩,
             ⟨chars "runme", [chars "#!/old/venv/bin/python -O\n", chars "x\n"]⟩],
            true, true, [chars "python2.7"], [chars "/lib/m.pyc"],
            ⟨false, .absent, .absent, .absent⟩⟩ (chars "/new/venv")).2.1
        (chars "/new/venv")).2.1.binEntries
      = (update_paths (chars "/v")
          ⟨true,
            [⟨chars "activate", [chars "VIRTUAL_ENV=\"/old/venv\"\n"]⟩,
             ⟨chars "runme", [chars "#!/old/venv/bin/python -O\n", chars "x\n"]⟩],
            true, true, [chars "python2.7"], [chars "/lib/m.pyc"],
            ⟨false, .absent, .absent, .absent⟩⟩ (chars "/new/venv")).2.1.binEntries :=
  ⟨⟨by decide, by decide, by decide, by decide, by decide, by decide⟩,
    C4_second_run_no_op_on_scripts (chars "/v")
      ⟨true,
        [⟨chars "activate", [chars "VIRTUAL_ENV=\"/old/venv\"\n"]⟩,
         ⟨chars "runme", [chars "#!/old/venv/bin/python -O\n", chars "x\n"]⟩],
        true, true, [chars "python2.7"], [chars "/lib/m.pyc"],
        ⟨false, .absent, .absent, .absent⟩⟩
      (chars "/new/venv") (chars "python2.7") (by decide) (by decide) (by decide)
      (by decide) (by decide) (by decide)⟩

/-! ## Unicode fidelity of the character classes

The embedded classes `pyIsSpace` and `pyIsDigit` are the full Unicode sets
CPython uses for `str` patterns and `str.split`/`str.strip` (not their
ASCII restrictions).  The following concrete facts pin the behaviour on
non-ASCII inputs; each matches a trace of the original program
(U+00A0 is written via `Char.ofNat` to keep the file printable). -/

/-- A no-break space is `\s`-whitespace, so an activation line with an
NBSP tail is matched and its payload rewritten, the tail preserved. -/
theorem activationSub_nbsp_tail :
    activationSub (chars "/NEW")
        (chars "VIRTUAL_ENV=\"/p\"" ++ [Char.ofNat 0xa0, '\n'])
      = chars "VIRTUAL_ENV=\"/NEW\"" ++ [Char.ofNat 0xa0, '\n'] := by decide

/-- An NBSP splits shebang tokens exactly as Python `str.split()` does:
the first token `/old` fails the `/bin/python` suffix test and the file
stays untouched. -/
theorem update_script_nbsp_token_untouched :
    update_script_lines (chars "/new")
        [chars "#!/old" ++ [Char.ofNat 0xa0] ++ chars "x/bin/python\n"]
      = [chars "#!/old" ++ [Char.ofNat 0xa0] ++ chars "x/bin/python\n"] := by
  decide

/-- `_pybin_match`'s `\d` is Unicode-aware: a version directory named with
Arabic-Indic digits (`python` U+0663 `.` U+0663) is recognized. -/
theorem pybinMatch_unicode_digits :
    pybinMatch (chars "python" ++ [Char.ofNat 0x663, '.', Char.ofNat 0x663]) = true
    ∧ pybinMatch (chars "python" ++ [Char.ofNat 0xb2]) = false := by decide

end VirtualenvTools
